import Mathlib

/-!
Verification of the line tokenizer in qutepart's Syntax.py against its
natural-language specification.

The development is a shallow embedding of `qutepart/Syntax.py`:

* rule classes (`DetectChar`, `Detect2Chars`, `StringDetect`, `RegExpr`,
  `keyword`, and the inert placeholder classes) become the inductive
  `RuleKind` together with `tryMatch`;
* the `Context` and `Syntax` containers become the structures `Context` and
  `SyntaxDef` (the name `Syntax` itself is taken by Lean's own prelude);
* `Syntax._generateNextContextStack` becomes `generateNextContextStack`;
* `Syntax._parseBlockWithContextStack` becomes `parseBlockWithContextStack`
  (rule scanning factored into `tryRules`, the `while` loop into
  `parseInnerLoop`, and the end-of-line epilogue into `innerExit`);
* `Syntax.parseBlock` becomes `parseBlock` (loop body `outerBody`, loop
  `parseBlockLoop`).

Python strings are embedded as `List Char`, Python exceptions as the
`PyError` sum threaded through `Except`, Python truthiness of the values that
can reach `self.casesensitive` as `PyVal.truthy`.  The two `while` loops are
modelled with explicit fuel; `.ok none` marks fuel exhaustion, i.e. an
execution in which the corresponding Python loop has not finished within the
supplied number of iterations (`parseInnerLoop_adequate` below shows the
inner loop can never exhaust the fuel `parseBlockWithContextStack` passes).
-/

set_option maxHeartbeats 1000000

deriving instance DecidableEq for Except

namespace Qutepart

/-- Python strings are embedded as lists of characters. -/
abbrev PyStr := List Char

/-- The Python exceptions that the embedded code can raise.
`notImplementedFault` stands for the exception raised by
`AbstractRule.tryMatch` (the source writes `raise NotImplementedFault()`;
the name `NotImplementedFault` is defined nowhere, so at runtime this is a
`NameError`, but either way the call raises instead of returning). -/
inductive PyError
  | indexError
  | keyError
  | typeError
  | notImplementedFault
deriving DecidableEq, Repr

/-- A Python value as far as `self.casesensitive` is concerned: the default
`True` set in `Syntax.__init__`, or the raw XML attribute string installed
over it by the `setattr(self, key, value)` loop. -/
inductive PyVal
  | pyBool (b : Bool)
  | pyStr (s : PyStr)
deriving DecidableEq, Repr

/-- Python truthiness for `PyVal`: `bool(s)` is true for every non-empty
string, including "false" and "0". -/
def PyVal.truthy : PyVal → Bool
  | .pyBool b => b
  | .pyStr s => !s.isEmpty

/-- Model of the patterns fed to Python's `re` module in this development:
a sequence of literal characters optionally followed by further atoms, where
`wordStar` stands for `\w*`.  (The `re` module is external library code, not
part of this repository; this models anchored `re.match` for exactly the
pattern forms the claims exercise.) -/
inductive RegexAtom
  | lit (c : Char)
  | wordStar
deriving DecidableEq, Repr

/-- Word characters, `\w`: alphanumeric or underscore. -/
def isWordChar (c : Char) : Bool := c.isAlphanum || c == '_'

/-- Anchored matching of a pattern against text, returning the length of
`match.group(0)`.  `ignoreCase` models the `re.IGNORECASE` compilation flag.
`wordStar` matches greedily, which agrees with Python for the patterns in
this development (nothing follows the starred atom that could force
backtracking). -/
def reMatchAux : List RegexAtom → Bool → List Char → Option Nat
  | [], _, _ => some 0
  | .lit _ :: _, _, [] => none
  | .lit c :: ps, ic, t :: ts =>
    if (if ic then c.toLower == t.toLower else c == t) then
      (reMatchAux ps ic ts).map (· + 1)
    else
      none
  | .wordStar :: ps, ic, ts =>
    let k := (ts.takeWhile isWordChar).length
    (reMatchAux ps ic (List.drop k ts)).map (· + k)

/-- Length of `compiled.match(text)`, see `reMatchAux`. -/
def reMatch (pattern : List RegexAtom) (ignoreCase : Bool) (text : List Char) : Option Nat :=
  reMatchAux pattern ignoreCase text

/-- What `RegExpr.__init__` stores in `self._regExp`: the pattern plus the
case sensitivity the compiled object actually has. -/
structure CompiledRegex where
  pattern : List RegexAtom
  ignoreCase : Bool
deriving DecidableEq, Repr

/-- Numeric value of `re.IGNORECASE` in CPython. -/
def reIGNORECASE : Nat := 2

/-- Embeds `RegExpr.__init__` (Syntax.py lines 125-141): the local variable
`flags` is set to `re.IGNORECASE` when the `insensitive` attribute is truthy,
but the compilation below it is `re.compile(string)` — `flags` is never
passed — so the stored compiled pattern is case-sensitive regardless of the
declaration.  (The `\0ddd` preprocessing of `_processCraracterCodes` happens
before compilation and is upstream of the pattern AST used here; no claim
touches it.) -/
def regExprInit (pattern : List RegexAtom) (insensitive : Bool) : CompiledRegex :=
  let flags : Nat := if insensitive then reIGNORECASE else 0
  { pattern := pattern, ignoreCase := false }

/-- The rule kinds of Syntax.py, one constructor per rule class (lines
72-207).  `AnyChar`, `WordDetect`, `Int`, `Float`, `HlCOct`, `HlCHex`,
`HlCStringChar`, `HlCChar`, `RangeDetect`, `LineContinue`, `IncludeRules`,
`DetectSpaces` and `DetectIdentifier` are bare `pass` subclasses of
`AbstractRule`: they store nothing and inherit its raising `tryMatch`. -/
inductive RuleKind
  | DetectChar (char : Char)
  | Detect2Chars (char : Char) (char1 : Char)
  | AnyChar
  | StringDetect (string : PyStr)
  | WordDetect
  | RegExpr (regExp : CompiledRegex)
  | keyword (string : PyStr)
  | Int
  | Float
  | HlCOct
  | HlCHex
  | HlCStringChar
  | HlCChar
  | RangeDetect
  | LineContinue
  | IncludeRules
  | DetectSpaces
  | DetectIdentifier
deriving DecidableEq, Repr

/-- The rule classes that define no `tryMatch` of their own and therefore
raise through `AbstractRule.tryMatch`. -/
def RuleKind.isPlaceholder : RuleKind → Bool
  | .AnyChar | .WordDetect | .Int | .Float | .HlCOct | .HlCHex | .HlCStringChar | .HlCChar
  | .RangeDetect | .LineContinue | .IncludeRules | .DetectSpaces | .DetectIdentifier => true
  | _ => false

/-- A rule instance: the fields read by the engine, `AbstractRule.__init__`
(lines 20-48) plus the kind-specific data. -/
structure Rule where
  kind : RuleKind
  formatName : Option PyStr
  contextOperation : Option PyStr
  column : Option Nat
deriving DecidableEq, Repr

/-- A highlighting context, `Context.__init__` (lines 224-253).  The loader
always stores a string in `lineEndContext` (the XML attribute or the default
"#stay"), but the engine guards on `is not None`, so the field is kept
optional here. -/
structure Context where
  name : PyStr
  formatName : PyStr
  lineEndContext : Option PyStr
  fallthroughContext : Option PyStr
  dynamic : Bool
  rules : List Rule
deriving DecidableEq, Repr

/-- The `Syntax` container (lines 272-377); `Syntax` itself names Lean's
syntax-tree type, hence `SyntaxDef`.  Only the fields the engine reads are
kept.  Dictionaries are association lists (Python dict keys are unique, and
within the engine lookups only ever hit one binding).  In Python two
`Context` objects compare by identity; the loader interns exactly one object
per context name, so the structural equality derived here agrees with the
identity-based comparisons of the source on loader-produced grammars. -/
structure SyntaxDef where
  deliminatorSet : List Char
  casesensitive : PyVal
  lists : List (PyStr × List PyStr)
  contexts : List (PyStr × Context)
  defaultContext : Context
deriving DecidableEq, Repr

/-- Python dict lookup `d[k]` over the association-list embedding, `none`
standing for the `KeyError` case which callers turn into an error. -/
def pyDictGet {β : Type} (d : List (PyStr × β)) (k : PyStr) : Option β :=
  match d with
  | [] => none
  | (k2, v) :: rest => if k2 = k then some v else pyDictGet rest k

/-- Python `l[-1]`: last element, `IndexError` on an empty list. -/
def pyLast {β : Type} : List β → Except PyError β
  | [] => .error .indexError
  | [x] => .ok x
  | _ :: y :: rest => pyLast (y :: rest)

/-- First entry of the keyword list that is a prefix of the text wins; this
is the `for word in ...: if text.startswith(word): return len(word)` loop of
`keyword.tryMatch` (lines 176-178). -/
def firstPrefixLen : List PyStr → PyStr → Option Nat
  | [], _ => none
  | w :: ws, t => if w.isPrefixOf t then some w.length else firstPrefixLen ws t

/-- Embeds the `tryMatch` methods (lines 59-207).  `text` is the remaining
slice `text[currentColumnIndex:]`.
* `DetectChar.tryMatch` reads `text[0]`, so it raises `IndexError` on an
  empty slice;
* `RegExpr.tryMatch` treats a zero-length `match.group(0)` as falsy, hence
  as no-match;
* `keyword.tryMatch` lowercases the *text* when
  `self.parentContext.syntax.casesensitive` is falsy, looks the list name up
  in `syntax.lists` (a `KeyError` if absent) and takes the first prefix;
* every placeholder class falls through to `AbstractRule.tryMatch`, which
  raises. -/
def tryMatch (syn : SyntaxDef) (rule : Rule) (text : PyStr) : Except PyError (Option Nat) :=
  match rule.kind with
  | .DetectChar char =>
    match text with
    | [] => .error .indexError
    | t :: _ => .ok (if t = char then some 1 else none)
  | .Detect2Chars char char1 =>
    .ok (if [char, char1].isPrefixOf text then some 2 else none)
  | .StringDetect string =>
    .ok (if string.isPrefixOf text then some string.length else none)
  | .RegExpr regExp =>
    .ok (match reMatch regExp.pattern regExp.ignoreCase text with
         | some n => if n = 0 then none else some n
         | none => none)
  | .keyword string =>
    let t := if !syn.casesensitive.truthy then text.map Char.toLower else text
    match pyDictGet syn.lists string with
    | none => .error .keyError
    | some words => .ok (firstPrefixLen words t)
  | _ => .error .notImplementedFault

/-- Embeds `Syntax._generateNextContextStack` (lines 495-510):
* a falsy (empty) operation string and `"#stay"` return the stack unchanged;
* an operation starting with `"#pop"` recurses on `currentStack[:-1]` and the
  remainder of the string — note `[:-1]` on an empty list silently yields the
  empty list again, there is no underflow check (the source carries a
  `FIXME context name and pops count validation`);
* anything else is a context name looked up in `self.contexts`
  (`KeyError` when absent) and appended to a fresh list. -/
def generateNextContextStack (contexts : List (PyStr × Context)) (currentStack : List Context)
    (operation : PyStr) : Except PyError (List Context) :=
  if operation = [] then .ok currentStack
  else if operation = "#stay".toList then .ok currentStack
  else
    match operation with
    | '#' :: 'p' :: 'o' :: 'p' :: rest =>
      generateNextContextStack contexts currentStack.dropLast rest
    | _ =>
      match pyDictGet contexts operation with
      | some ctx => .ok (currentStack ++ [ctx])
      | none => .error .keyError

/-- One attempted rule: span of the form `(rule, position, length)`. -/
abbrev MatchedRule := Rule × Nat × Nat

/-- One segment of the line: `(context, length, matched rules)`. -/
abbrev MatchedContext := Context × Nat × List MatchedRule

instance : DecidableEq MatchedRule := inferInstance

instance : DecidableEq (List MatchedRule) := inferInstance

instance : DecidableEq MatchedContext := inferInstance

instance : DecidableEq (List MatchedContext) := inferInstance

/-- The guard `rule.column is not None and rule.column != currentColumnIndex`
(lines 451-452) deciding that a rule is skipped. -/
def skipRule (rule : Rule) (col : Nat) : Bool :=
  match rule.column with
  | some c => c != col
  | none => false

/-- Embeds the `for rule in currentContext.rules` loop of
`_parseBlockWithContextStack` (lines 449-457) up to the first match: a rule
whose `column` is set and differs from the current column is skipped without
its matcher being invoked; otherwise `tryMatch` runs on
`text[currentColumnIndex:]` and the first rule reporting a length wins. -/
def tryRules (syn : SyntaxDef) (col : Nat) (text : PyStr) :
    List Rule → Except PyError (Option (Rule × Nat))
  | [] => .ok none
  | rule :: rest =>
    if skipRule rule col then
      tryRules syn col text rest
    else
      match tryMatch syn rule (List.drop col text) with
      | .error e => .error e
      | .ok (some count) => .ok (some (rule, count))
      | .ok none => tryRules syn col text rest

/-- The end-of-line transition applied by `_parseBlockWithContextStack` when
the scan leaves the `while` loop (lines 470-471): the guard
`contextStack[-1].lineEndContext is not None`, then the operation. -/
def lineEndResult (syn : SyntaxDef) (stack : List Context) : Except PyError (List Context) :=
  match pyLast stack with
  | .error e => .error e
  | .ok lastCtx =>
    match lastCtx.lineEndContext with
    | some op => generateNextContextStack syn.contexts stack op
    | none => .ok stack

/-- The `return` at the bottom of `_parseBlockWithContextStack`
(lines 470-473): apply the line-end transition and report
`(currentColumnIndex - startColumnIndex, contextStack, matchedRules)`. -/
def innerExit (syn : SyntaxDef) (stack : List Context) (startCol col : Nat)
    (acc : List MatchedRule) : Except PyError (Option (Nat × List Context × List MatchedRule)) :=
  match lineEndResult syn stack with
  | .error e => .error e
  | .ok stack2 => .ok (some (col - startCol, stack2, acc))

/-- Embeds the `while currentColumnIndex < len(text)` loop of
`_parseBlockWithContextStack` (lines 447-473).  Matches follow the source
exactly: on a match the span `(rule, column, count)` is recorded and the
column advances by `count`; if the rule's context operation produces a stack
unequal to the current one the function returns early with
`(currentColumnIndex - startColumnIndex, newContextStack, matchedRules)`;
otherwise the `break` falls through to the unconditional
`currentColumnIndex += 1` at the bottom of the loop, so a non-switching
match advances the column by `count + 1` in total, and a column with no
match advances by exactly 1.  The loop is modelled with fuel; every
continuing iteration advances the column by at least one, so the fuel
`text.length + 1` passed by `parseBlockWithContextStack` can never run out
(`parseInnerLoop_adequate`); `.ok none` is the fuel-exhaustion marker. -/
def parseInnerLoop (syn : SyntaxDef) (stack : List Context) (cur : Context) (startCol : Nat)
    (text : PyStr) : Nat → Nat → List MatchedRule →
    Except PyError (Option (Nat × List Context × List MatchedRule))
  | 0, col, acc =>
    if col < text.length then .ok none
    else innerExit syn stack startCol col acc
  | fuel + 1, col, acc =>
    if col < text.length then
      match tryRules syn col text cur.rules with
      | .error e => .error e
      | .ok none =>
        parseInnerLoop syn stack cur startCol text fuel (col + 1) acc
      | .ok (some (rule, count)) =>
        match rule.contextOperation with
        | none =>
          parseInnerLoop syn stack cur startCol text fuel (col + count + 1)
            (acc ++ [(rule, col, count)])
        | some op =>
          match generateNextContextStack syn.contexts stack op with
          | .error e => .error e
          | .ok newStack =>
            if newStack ≠ stack then
              .ok (some (col + count - startCol, newStack, acc ++ [(rule, col, count)]))
            else
              parseInnerLoop syn stack cur startCol text fuel (col + count + 1)
                (acc ++ [(rule, col, count)])
    else innerExit syn stack startCol col acc

/-- Embeds `Syntax._parseBlockWithContextStack` (lines 436-473):
`currentContext = contextStack[-1]` (an `IndexError` on an empty stack),
then the scan loop starting at `startColumnIndex = currentColumnIndex`. -/
def parseBlockWithContextStack (syn : SyntaxDef) (stack : List Context) (col : Nat)
    (text : PyStr) : Except PyError (Option (Nat × List Context × List MatchedRule)) :=
  match pyLast stack with
  | .error e => .error e
  | .ok cur => parseInnerLoop syn stack cur col text (text.length + 1) col []

/-- One iteration of the `while` loop of `Syntax.parseBlock` (lines
425-432): run `_parseBlockWithContextStack`, append
`(contextStack[-1], length, matchedRules)`, adopt the new stack and advance
the column by the segment length. -/
def outerBody (syn : SyntaxDef) (text : PyStr) (stack : List Context) (col : Nat) :
    Except PyError (Option (MatchedContext × List Context × Nat)) :=
  match parseBlockWithContextStack syn stack col text with
  | .error e => .error e
  | .ok none => .ok none
  | .ok (some (length, newStack, matchedRules)) =>
    match pyLast stack with
    | .error e => .error e
    | .ok cur => .ok (some ((cur, length, matchedRules), newStack, col + length))

/-- The `while currentColumnIndex < len(text)` loop of `Syntax.parseBlock`,
with fuel (`.ok none` = the loop has not finished within `fuel` iterations;
with every segment of positive length, `text.length + 1` iterations always
suffice, see `parse_terminates_with_positive_matches`). -/
def parseBlockLoop (syn : SyntaxDef) (text : PyStr) :
    Nat → List Context → Nat → List MatchedContext →
    Except PyError (Option (List Context × List MatchedContext))
  | 0, stack, col, acc =>
    if col < text.length then .ok none
    else .ok (some (stack, acc))
  | fuel + 1, stack, col, acc =>
    if col < text.length then
      match outerBody syn text stack col with
      | .error e => .error e
      | .ok none => .ok none
      | .ok (some (seg, newStack, newCol)) =>
        parseBlockLoop syn text fuel newStack newCol (acc ++ [seg])
    else .ok (some (stack, acc))

/-- Lines 417-420 of `Syntax.parseBlock`: resume from the previous line's stack
when there is one, otherwise start from `[self.defaultContext]`. -/
def initialStack (syn : SyntaxDef) (prevLineData : Option (List Context)) : List Context :=
  match prevLineData with
  | some s => s
  | none => [syn.defaultContext]

/-- Embeds `Syntax.parseBlock` (lines 409-434), returning
`(contextStack, matchedContexts)`. -/
def parseBlock (syn : SyntaxDef) (text : PyStr) (prevLineData : Option (List Context)) :
    Except PyError (Option (List Context × List MatchedContext)) :=
  parseBlockLoop syn text (text.length + 1) (initialStack syn prevLineData) 0 []

/-- Embeds the attribute-reading loop of `Syntax.__init__` (lines 333-335):
`for key, value in root.items(): setattr(self, key, value)` overwrites the
default `self.casesensitive = True` with the raw XML attribute *string*
whenever the root element carries a `casesensitive` attribute. -/
def initCasesensitive (rootAttribs : List (PyStr × PyStr)) : PyVal :=
  match pyDictGet rootAttribs ("casesensitive".toList) with
  | some v => .pyStr v
  | none => .pyBool true

/-- Embeds the keyword-lowercasing loop of `Syntax.__init__` (lines
346-350).  The loop iterates `self.lists.items()`, so `keywordList` is a
`(name, value)` *tuple*; `enumerate` then walks that tuple and
`keywordList[index] = keyword.lower()` assigns into a tuple, which raises
`TypeError` already on the first item of the first pair.  Hence: an empty
dict survives vacuously, any non-empty dict raises. -/
def lowercaseKeywordLists (lists : List (PyStr × List PyStr)) :
    Except PyError (List (PyStr × List PyStr)) :=
  match lists with
  | [] => .ok []
  | _ :: _ => .error .typeError

/-- The case-sensitivity portion of `Syntax.__init__` (lines 333-350): read
the attribute, then run the lowercasing loop only when the stored value is
falsy. -/
def initCaseSetup (rootAttribs : List (PyStr × PyStr)) (lists : List (PyStr × List PyStr)) :
    Except PyError (PyVal × List (PyStr × List PyStr)) :=
  let cs := initCasesensitive rootAttribs
  if !cs.truthy then
    match lowercaseKeywordLists lists with
    | .error e => .error e
    | .ok l => .ok (cs, l)
  else .ok (cs, lists)

/-- The contexts a parse can ever find on its stack when the initial stack
is made of the grammar's own contexts: the designated default context and
every context recorded in the `contexts` table.  (`generateNextContextStack`
only pushes contexts obtained from the table.) -/
def InSyntax (syn : SyntaxDef) (c : Context) : Prop :=
  c = syn.defaultContext ∨ ∃ name, (name, c) ∈ syn.contexts

/-! ## Concrete grammars used by the claims

Each grammar below is a value the loader could produce from a small syntax
definition file; they are the inputs at which the claims are evaluated. -/

/-- Rule `DetectChar('a')` with no context operation and no column constraint. -/
def ruleA1 : Rule :=
  { kind := .DetectChar 'a', formatName := none, contextOperation := none, column := none }

/-- A single default context holding `ruleA1`, line-end operation "#stay". -/
def ctxA1 : Context :=
  { name := "A".toList, formatName := "dsNormal".toList,
    lineEndContext := some ("#stay".toList), fallthroughContext := none,
    dynamic := false, rules := [ruleA1] }

/-- Case-sensitive grammar whose only context is `ctxA1`. -/
def synA1 : SyntaxDef :=
  { deliminatorSet := [], casesensitive := .pyBool true, lists := [],
    contexts := [("A".toList, ctxA1)], defaultContext := ctxA1 }

/-- A reserved placeholder rule of variant `Int`. -/
def intRule : Rule :=
  { kind := .Int, formatName := none, contextOperation := none, column := none }

/-- A reserved placeholder rule of variant `Float`. -/
def floatRule : Rule :=
  { kind := .Float, formatName := none, contextOperation := none, column := none }

/-- Keyword rule over the list named "kw". -/
def kwRule4 : Rule :=
  { kind := .keyword ("kw".toList), formatName := none, contextOperation := none, column := none }

/-- Grammar declared case-insensitive the only way the loader can record it:
`casesensitive` holds the raw attribute string "false" (a truthy value),
with keyword list `kw = ["int", "float"]`. -/
def syn4 : SyntaxDef :=
  { deliminatorSet := [], casesensitive := .pyStr ("false".toList),
    lists := [("kw".toList, ["int".toList, "float".toList])],
    contexts := [("A".toList, ctxA1)], defaultContext := ctxA1 }

/-- The pattern `abc` as a regex AST. -/
def abcPattern : List RegexAtom := [.lit 'a', .lit 'b', .lit 'c']

/-- Rule `RegExpr(String="abc", insensitive=true)` as stored after `__init__`. -/
def reRuleAbc : Rule :=
  { kind := .RegExpr (regExprInit abcPattern true), formatName := none,
    contextOperation := none, column := none }

/-- Keyword rule over the list named "kwlist" (`["if", "ifdef"]` in `syn6`). -/
def kwRule6 : Rule :=
  { kind := .keyword ("kwlist".toList), formatName := none,
    contextOperation := none, column := none }

/-- The regex rule `/if\w*/`. -/
def reRule6 : Rule :=
  { kind := .RegExpr { pattern := [.lit 'i', .lit 'f', .wordStar], ignoreCase := false },
    formatName := none, contextOperation := none, column := none }

/-- Context declaring the keyword rule before the regex rule. -/
def ctx6 : Context :=
  { name := "C6".toList, formatName := "dsNormal".toList,
    lineEndContext := some ("#stay".toList), fallthroughContext := none,
    dynamic := false, rules := [kwRule6, reRule6] }

/-- Case-sensitive grammar with `kwlist = ["if", "ifdef"]` and `ctx6`. -/
def syn6 : SyntaxDef :=
  { deliminatorSet := [], casesensitive := .pyBool true,
    lists := [("kwlist".toList, ["if".toList, "ifdef".toList])],
    contexts := [("C6".toList, ctx6)], defaultContext := ctx6 }

/-- Rule `DetectChar('x')` whose context operation `"#popA"` pops the current
context and pushes context "A" back: a compound operation that resolves to
the very stack it started from. -/
def rule7 : Rule :=
  { kind := .DetectChar 'x', formatName := none,
    contextOperation := some ("#popA".toList), column := none }

/-- Context "A" of the grammar exercising stack-equality control flow. -/
def ctx7 : Context :=
  { name := "A".toList, formatName := "dsNormal".toList,
    lineEndContext := some ("#stay".toList), fallthroughContext := none,
    dynamic := false, rules := [rule7] }

/-- Grammar whose single context "A" carries `rule7`. -/
def syn7 : SyntaxDef :=
  { deliminatorSet := [], casesensitive := .pyBool true, lists := [],
    contexts := [("A".toList, ctx7)], defaultContext := ctx7 }

/-- Rule `DetectChar('a')` constrained to column 0. -/
def rule8 : Rule :=
  { kind := .DetectChar 'a', formatName := none, contextOperation := none, column := some 0 }

/-- Rule `StringDetect("")` pushing context "B": matches with length 0 at every
position (`startswith("")` is always true). -/
def rulePA : Rule :=
  { kind := .StringDetect [], formatName := none,
    contextOperation := some ("B".toList), column := none }

/-- Rule `StringDetect("")` popping back to the previous context. -/
def rulePB : Rule :=
  { kind := .StringDetect [], formatName := none,
    contextOperation := some ("#pop".toList), column := none }

/-- Context "A" of the non-terminating grammar. -/
def ctxPA : Context :=
  { name := "A".toList, formatName := "dsNormal".toList,
    lineEndContext := some ("#stay".toList), fallthroughContext := none,
    dynamic := false, rules := [rulePA] }

/-- Context "B" of the non-terminating grammar. -/
def ctxPB : Context :=
  { name := "B".toList, formatName := "dsNormal".toList,
    lineEndContext := some ("#stay".toList), fallthroughContext := none,
    dynamic := false, rules := [rulePB] }

/-- A grammar on which `parseBlock` never terminates: "A" pushes "B" with a
zero-length match, "B" pops back with a zero-length match. -/
def synPing : SyntaxDef :=
  { deliminatorSet := [], casesensitive := .pyBool true, lists := [],
    contexts := [("A".toList, ctxPA), ("B".toList, ctxPB)], defaultContext := ctxPA }

/-- The one-character line fed to `synPing`. -/
def pingText : PyStr := "x".toList

/-! ## Supporting lemmas -/

theorem pyLast_mem {β : Type} : ∀ (l : List β) (x : β), pyLast l = .ok x → x ∈ l
  | [], x, h => by simp [pyLast] at h
  | [a], x, h => by
    simp only [pyLast] at h
    injection h with h2
    subst h2
    exact List.mem_singleton_self a
  | a :: b :: t, x, h => by
    simp only [pyLast] at h
    exact List.mem_cons_of_mem a (pyLast_mem (b :: t) x h)

theorem tryRules_sound (syn : SyntaxDef) (col : Nat) (text : PyStr) :
    ∀ (rules : List Rule) (r : Rule) (n : Nat),
      tryRules syn col text rules = .ok (some (r, n)) →
      r ∈ rules ∧ tryMatch syn r (List.drop col text) = .ok (some n)
  | [], r, n, h => by simp [tryRules] at h
  | rule :: rest, r, n, h => by
    unfold tryRules at h
    split at h
    · have ih := tryRules_sound syn col text rest r n h
      exact ⟨List.mem_cons_of_mem rule ih.1, ih.2⟩
    · split at h
      · exact absurd h (by simp)
      · rename_i count hm
        injection h with h2
        injection h2 with h3
        injection h3 with ha hb
        subst ha
        subst hb
        exact ⟨List.mem_cons_self rule rest, hm⟩
      · have ih := tryRules_sound syn col text rest r n h
        exact ⟨List.mem_cons_of_mem rule ih.1, ih.2⟩

theorem tryRules_total (syn : SyntaxDef) (col : Nat) (text : PyStr) :
    ∀ (rules : List Rule),
      (∀ r ∈ rules, ∃ o, tryMatch syn r (List.drop col text) = .ok o) →
      ∃ o, tryRules syn col text rules = .ok o
  | [], _ => ⟨none, rfl⟩
  | rule :: rest, hall => by
    have hrest : ∀ r ∈ rest, ∃ o, tryMatch syn r (List.drop col text) = .ok o :=
      fun r hr => hall r (List.mem_cons_of_mem rule hr)
    unfold tryRules
    split
    · exact tryRules_total syn col text rest hrest
    · obtain ⟨o, ho⟩ := hall rule (List.mem_cons_self rule rest)
      rw [ho]
      match o with
      | some count => exact ⟨some (rule, count), rfl⟩
      | none => exact tryRules_total syn col text rest hrest

theorem pyDictGet_mem {β : Type} :
    ∀ (d : List (PyStr × β)) (k : PyStr) (v : β), pyDictGet d k = some v → (k, v) ∈ d
  | [], k, v, h => by simp [pyDictGet] at h
  | (k2, w) :: rest, k, v, h => by
    unfold pyDictGet at h
    split at h
    · rename_i heq
      injection h with h2
      subst h2
      subst heq
      exact List.mem_cons_self _ _
    · exact List.mem_cons_of_mem _ (pyDictGet_mem rest k v h)

theorem generateNextContextStack_preserves (syn : SyntaxDef) :
    ∀ (N : Nat) (operation : PyStr) (stack st : List Context),
      operation.length ≤ N →
      (∀ c ∈ stack, InSyntax syn c) →
      generateNextContextStack syn.contexts stack operation = .ok st →
      ∀ c ∈ st, InSyntax syn c := by
  intro N
  induction N with
  | zero =>
    intro operation stack st hlen hstk h
    have hop : operation = [] := List.length_eq_zero.mp (Nat.le_zero.mp hlen)
    subst hop
    unfold generateNextContextStack at h
    rw [if_pos rfl] at h
    injection h with h2
    subst h2
    exact hstk
  | succ N ih =>
    intro operation stack st hlen hstk h
    unfold generateNextContextStack at h
    by_cases h0 : operation = []
    · rw [if_pos h0] at h
      injection h with h2
      subst h2
      exact hstk
    · rw [if_neg h0] at h
      by_cases h1 : operation = "#stay".toList
      · rw [if_pos h1] at h
        injection h with h2
        subst h2
        exact hstk
      · rw [if_neg h1] at h
        split at h
        · rename_i rest
          refine ih rest stack.dropLast st ?_ ?_ h
          · simp at hlen
            omega
          · intro c hc
            exact hstk c (List.mem_of_mem_dropLast hc)
        · split at h
          · rename_i ctx hget
            injection h with h2
            subst h2
            intro c hc
            rcases List.mem_append.mp hc with hm | hm
            · exact hstk c hm
            · have hcc : c = ctx := by simpa using hm
              subst hcc
              exact Or.inr ⟨operation, pyDictGet_mem _ _ _ hget⟩
          · exact absurd h (by simp)

theorem lineEndResult_preserves (syn : SyntaxDef) (stack st : List Context)
    (hstk : ∀ c ∈ stack, InSyntax syn c)
    (h : lineEndResult syn stack = .ok st) : ∀ c ∈ st, InSyntax syn c := by
  unfold lineEndResult at h
  split at h
  · exact absurd h (by simp)
  · split at h
    · rename_i op hop
      exact generateNextContextStack_preserves syn op.length op stack st (Nat.le_refl _) hstk h
    · injection h with h2
      subst h2
      exact hstk

theorem innerExit_spec (syn : SyntaxDef) (stack : List Context) (startCol col : Nat)
    (acc : List MatchedRule) (n : Nat) (st : List Context) (sp : List MatchedRule)
    (hstk : ∀ c ∈ stack, InSyntax syn c)
    (h : innerExit syn stack startCol col acc = .ok (some (n, st, sp))) :
    n = col - startCol ∧ (∀ c ∈ st, InSyntax syn c) ∧ sp = acc := by
  unfold innerExit at h
  split at h
  · exact absurd h (by simp)
  · rename_i s2 hle
    injection h with h2
    injection h2 with h3
    injection h3 with ha h4
    injection h4 with hb hc
    refine ⟨ha.symm, ?_, hc.symm⟩
    rw [← hb]
    exact lineEndResult_preserves syn stack s2 hstk hle

/-- Every continuing iteration of the inner scan loop advances the column by
at least one, so the fuel `parseBlockWithContextStack` supplies can never be
exhausted: the loop model never returns the fuel-out marker. -/
theorem parseInnerLoop_adequate (syn : SyntaxDef) (stack : List Context) (cur : Context)
    (startCol : Nat) (text : PyStr) :
    ∀ (fuel col : Nat) (acc : List MatchedRule), text.length - col < fuel →
      parseInnerLoop syn stack cur startCol text fuel col acc ≠ .ok none := by
  intro fuel
  induction fuel with
  | zero =>
    intro col acc h
    exact absurd h (Nat.not_lt_zero _)
  | succ fuel ih =>
    intro col acc hlt
    unfold parseInnerLoop
    by_cases hc : col < text.length
    · rw [if_pos hc]
      split
      · simp
      · exact ih (col + 1) acc (by omega)
      · rename_i rule count htr
        split
        · exact ih (col + count + 1) (acc ++ [(rule, col, count)]) (by omega)
        · rename_i op hop
          split
          · simp
          · split
            · simp
            · exact ih (col + count + 1) (acc ++ [(rule, col, count)]) (by omega)
    · rw [if_neg hc]
      unfold innerExit
      split
      · simp
      · simp

/-- The inner `while` loop of `_parseBlockWithContextStack` always
terminates: the wrapper never reports fuel exhaustion. -/
theorem parseBlockWithContextStack_adequate (syn : SyntaxDef) (stack : List Context)
    (col : Nat) (text : PyStr) :
    parseBlockWithContextStack syn stack col text ≠ .ok none := by
  unfold parseBlockWithContextStack
  cases hl : pyLast stack with
  | error e => simp
  | ok cur => exact parseInnerLoop_adequate syn stack cur col text (text.length + 1) col [] (by omega)

theorem outerBody_no_fuel_out (syn : SyntaxDef) (text : PyStr) (stack : List Context)
    (col : Nat) : outerBody syn text stack col ≠ .ok none := by
  unfold outerBody
  cases hp : parseBlockWithContextStack syn stack col text with
  | error e => simp
  | ok o =>
    cases o with
    | none => exact absurd hp (parseBlockWithContextStack_adequate syn stack col text)
    | some trip =>
      obtain ⟨l, s, m⟩ := trip
      cases pyLast stack <;> simp

theorem parseInnerLoop_stay (syn : SyntaxDef) (stack : List Context) (cur : Context)
    (text : PyStr) (startCol : Nat) (endStack : List Context)
    (hmatch : ∀ r ∈ cur.rules, ∀ k, k < text.length →
      ∃ o, tryMatch syn r (List.drop k text) = .ok o)
    (hstay : ∀ r ∈ cur.rules, ∀ op, r.contextOperation = some op →
      generateNextContextStack syn.contexts stack op = .ok stack)
    (hend : lineEndResult syn stack = .ok endStack) :
    ∀ (fuel col : Nat) (acc : List MatchedRule), text.length - col < fuel → startCol ≤ col →
      ∃ n tail, parseInnerLoop syn stack cur startCol text fuel col acc
          = .ok (some (n, endStack, acc ++ tail)) ∧ text.length ≤ startCol + n := by
  intro fuel
  induction fuel with
  | zero =>
    intro col acc h _
    exact absurd h (Nat.not_lt_zero _)
  | succ fuel ih =>
    intro col acc hlt hsc
    unfold parseInnerLoop
    by_cases hc : col < text.length
    · rw [if_pos hc]
      split
      · rename_i e htr
        obtain ⟨o, ho⟩ := tryRules_total syn col text cur.rules (fun r hr => hmatch r hr col hc)
        rw [htr] at ho
        exact absurd ho (by simp)
      · exact ih (col + 1) acc (by omega) (by omega)
      · rename_i rule count htr
        have hsound := tryRules_sound syn col text cur.rules rule count htr
        split
        · obtain ⟨n, tail, hres, hlen⟩ :=
            ih (col + count + 1) (acc ++ [(rule, col, count)]) (by omega) (by omega)
          rw [List.append_assoc, List.singleton_append] at hres
          exact ⟨n, (rule, col, count) :: tail, hres, hlen⟩
        · rename_i op hop
          have hgenEq := hstay rule hsound.1 op hop
          split
          · rename_i e hgen
            rw [hgenEq] at hgen
            exact absurd hgen (by simp)
          · rename_i newStack hgen
            rw [hgenEq] at hgen
            injection hgen with hns
            subst hns
            split
            · rename_i hne
              exact absurd rfl hne
            · obtain ⟨n, tail, hres, hlen⟩ :=
                ih (col + count + 1) (acc ++ [(rule, col, count)]) (by omega) (by omega)
              rw [List.append_assoc, List.singleton_append] at hres
              exact ⟨n, (rule, col, count) :: tail, hres, hlen⟩
    · rw [if_neg hc]
      unfold innerExit
      rw [hend]
      refine ⟨col - startCol, [], ?_, by omega⟩
      rw [List.append_nil]

/-- When every rule of the active context only ever matches with positive
length, a successful inner-loop run starting inside the line consumes at
least one column, and the stack it hands back stays within the grammar's
contexts. -/
theorem parseInnerLoop_spec (syn : SyntaxDef) (stack : List Context) (cur : Context)
    (text : PyStr) (startCol : Nat)
    (hpos : ∀ r ∈ cur.rules, ∀ t n, tryMatch syn r t = .ok (some n) → 0 < n)
    (hstk : ∀ c ∈ stack, InSyntax syn c) :
    ∀ (fuel col : Nat) (acc : List MatchedRule) (n : Nat) (st : List Context)
      (sp : List MatchedRule), startCol ≤ col →
      parseInnerLoop syn stack cur startCol text fuel col acc = .ok (some (n, st, sp)) →
      (startCol < text.length → 0 < n) ∧ ∀ c ∈ st, InSyntax syn c := by
  intro fuel
  induction fuel with
  | zero =>
    intro col acc n st sp hsc h
    unfold parseInnerLoop at h
    split at h
    · exact absurd h (by simp)
    · rename_i hc
      obtain ⟨hn, hpres, _⟩ := innerExit_spec syn stack startCol col acc n st sp hstk h
      exact ⟨fun hstart => by omega, hpres⟩
  | succ fuel ih =>
    intro col acc n st sp hsc h
    unfold parseInnerLoop at h
    split at h
    · rename_i hc
      split at h
      · exact absurd h (by simp)
      · exact ih (col + 1) acc n st sp (by omega) h
      · rename_i rule count htr
        have hsound := tryRules_sound syn col text cur.rules rule count htr
        have hcount : 0 < count := hpos rule hsound.1 _ count hsound.2
        split at h
        · exact ih (col + count + 1) (acc ++ [(rule, col, count)]) n st sp (by omega) h
        · rename_i op hop
          split at h
          · exact absurd h (by simp)
          · rename_i newStack hgen
            split at h
            · injection h with h2
              injection h2 with h3
              injection h3 with ha h4
              injection h4 with hb hc2
              constructor
              · intro _
                omega
              · rw [← hb]
                exact generateNextContextStack_preserves syn op.length op stack newStack
                  (Nat.le_refl _) hstk hgen
            · exact ih (col + count + 1) (acc ++ [(rule, col, count)]) n st sp (by omega) h
    · rename_i hc
      obtain ⟨hn, hpres, _⟩ := innerExit_spec syn stack startCol col acc n st sp hstk h
      exact ⟨fun hstart => by omega, hpres⟩

/-- One iteration of the outer driver started strictly inside the line
advances the column and keeps the stack within the grammar's contexts, as
long as all matches have positive length. -/
theorem outerBody_spec (syn : SyntaxDef) (text : PyStr) (stack : List Context) (col : Nat)
    (seg : MatchedContext) (newStack : List Context) (newCol : Nat)
    (hpos : ∀ c, InSyntax syn c → ∀ r ∈ c.rules, ∀ t n, tryMatch syn r t = .ok (some n) → 0 < n)
    (hstk : ∀ c ∈ stack, InSyntax syn c) (hcol : col < text.length)
    (h : outerBody syn text stack col = .ok (some (seg, newStack, newCol))) :
    col < newCol ∧ ∀ c ∈ newStack, InSyntax syn c := by
  unfold outerBody at h
  split at h
  · exact absurd h (by simp)
  · exact absurd h (by simp)
  · rename_i length st2 mr hp
    split at h
    · exact absurd h (by simp)
    · rename_i cur hl
      injection h with h2
      injection h2 with h3
      injection h3 with hseg h4
      injection h4 with hst hcol2
      have hcur : InSyntax syn cur := hstk cur (pyLast_mem stack cur hl)
      unfold parseBlockWithContextStack at hp
      rw [hl] at hp
      obtain ⟨hlen, hpres⟩ := parseInnerLoop_spec syn stack cur text col
        (hpos cur hcur) hstk (text.length + 1) col [] length st2 mr (Nat.le_refl col) hp
      constructor
      · have := hlen hcol
        omega
      · rw [← hst]
        exact hpres

theorem parseBlockLoop_no_fuel_out (syn : SyntaxDef) (text : PyStr)
    (hpos : ∀ c, InSyntax syn c → ∀ r ∈ c.rules, ∀ t n, tryMatch syn r t = .ok (some n) → 0 < n) :
    ∀ (fuel : Nat) (stack : List Context) (col : Nat) (acc : List MatchedContext),
      (∀ c ∈ stack, InSyntax syn c) → text.length - col < fuel →
      parseBlockLoop syn text fuel stack col acc ≠ .ok none := by
  intro fuel
  induction fuel with
  | zero =>
    intro stack col acc _ h
    exact absurd h (Nat.not_lt_zero _)
  | succ fuel ih =>
    intro stack col acc hstk hlt
    unfold parseBlockLoop
    by_cases hc : col < text.length
    · rw [if_pos hc]
      split
      · simp
      · rename_i ho
        exact absurd ho (outerBody_no_fuel_out syn text stack col)
      · rename_i seg newStack newCol ho
        have hspec := outerBody_spec syn text stack col seg newStack newCol hpos hstk hc ho
        exact ih newStack newCol (acc ++ [seg]) hspec.2 (by omega)
    · rw [if_neg hc]
      simp

/-- Computation rule for `tryMatch` on a `DetectChar` rule and a non-empty
remaining slice. -/
theorem tryMatch_detectChar (syn : SyntaxDef) (r : Rule) (ch : Char)
    (hk : r.kind = .DetectChar ch) (a : Char) (as : List Char) :
    tryMatch syn r (a :: as) = .ok (if a = ch then some 1 else none) := by
  unfold tryMatch
  rw [hk]

/-- Computation rule for `tryMatch` on a `DetectChar` rule and an empty
remaining slice: `text[0]` raises. -/
theorem tryMatch_detectChar_nil (syn : SyntaxDef) (r : Rule) (ch : Char)
    (hk : r.kind = .DetectChar ch) :
    tryMatch syn r [] = .error .indexError := by
  unfold tryMatch
  rw [hk]

/-- A rule of kind `DetectChar` can only report length 1. -/
theorem detectChar_positive (syn : SyntaxDef) (r : Rule) (ch : Char)
    (hk : r.kind = .DetectChar ch) :
    ∀ t n, tryMatch syn r t = .ok (some n) → 0 < n := by
  intro t n h
  cases t with
  | nil =>
    rw [tryMatch_detectChar_nil syn r ch hk] at h
    exact absurd h (by simp)
  | cons a as =>
    rw [tryMatch_detectChar syn r ch hk a as] at h
    by_cases hca : a = ch
    · rw [if_pos hca] at h
      injection h with h2
      injection h2 with h3
      omega
    · rw [if_neg hca] at h
      exact absurd h (by simp)

/-! ## Claim theorems -/

/-- C1: the claim says that a rule matching with length `n` while the stack
stays equal advances the scan column by exactly `n`, and that the recorded
segment lengths sum to the line length.  The code instead falls through the
`break` to the unconditional `currentColumnIndex += 1`, advancing by `n + 1`
on every non-switching match: on the grammar whose single context holds
`DetectChar('a')` with no context operation, the one-character line "a"
yields a single segment of recorded length 2 (the span itself is recorded
with its true length 1), and on the line "aa" the second character — which
the rule would match — is never even scanned, leaving one span instead of
two.  The segment lengths thus sum to 2 on a line of length 1. -/
theorem segment_overshoot_bug :
    parseBlock synA1 ("a".toList) none
        = .ok (some ([ctxA1], [(ctxA1, 2, [(ruleA1, 0, 1)])])) ∧
    ("a".toList).length = 1 ∧
    parseBlock synA1 ("aa".toList) none
        = .ok (some ([ctxA1], [(ctxA1, 2, [(ruleA1, 0, 1)])])) := by
  refine ⟨?_, ?_, ?_⟩ <;> decide

/-- C2: the claim says `"#pop"` on a one-element stack (and compound
operations popping deeper than the stack) must fail with StackUnderflow.
The code has no underflow check: `currentStack[:-1]` on a singleton yields
`[]`, recursion sees the exhausted operation string and returns the empty
stack silently; likewise three pops on a two-element stack. -/
theorem pop_underflow_silent :
    generateNextContextStack [] [ctxA1] ("#pop".toList) = .ok [] ∧
    generateNextContextStack [] [ctxA1, ctxA1] ("#pop#pop#pop".toList) = .ok [] := by
  exact ⟨by decide, by decide⟩

/-- C3 counterexample: the claim says the reserved no-op variants report
no-match and never raise.  The `Int` variant is a bare `pass` subclass, so
its `tryMatch` is `AbstractRule.tryMatch`, which raises (the claim's
"reports no-match, never raises" is false at this concrete input). -/
theorem noop_variant_raises_counterexample :
    tryMatch synA1 intRule ("5".toList) = .error .notImplementedFault := by
  decide

/-- C3 amended: for every reserved placeholder variant and every input text,
`tryMatch` raises the not-implemented error of the base class (it never
matches and never consumes characters); a grammar containing such rules
loads, but parsing raises when such a rule is attempted, rather than the
rule silently never firing. -/
theorem noop_variants_raise (syn : SyntaxDef) (r : Rule) (text : PyStr)
    (h : r.kind.isPlaceholder = true) :
    tryMatch syn r text = .error .notImplementedFault := by
  obtain ⟨kind, fn, co, col⟩ := r
  cases kind <;> simp_all [tryMatch, RuleKind.isPlaceholder]

/-- C3 witness: the amended theorem applied to the `Float` variant on the
text "x". -/
theorem noop_variants_raise_witness :
    RuleKind.isPlaceholder floatRule.kind = true ∧
    tryMatch synA1 floatRule ("x".toList) = .error .notImplementedFault :=
  ⟨by decide, noop_variants_raise synA1 floatRule ("x".toList) (by decide)⟩

/-- C4: the claim says a case-insensitive grammar lowercases keyword lists
at load time and case-folds keyword matching, so "INT x" matches length 3.
In the code a declared `casesensitive="false"` is stored as the raw string
"false", which is truthy, so the grammar behaves case-sensitively and the
keyword rule reports no-match on "INT x"; and even with a falsy (empty)
attribute value the lowercasing loop iterates `lists.items()` and assigns
into the `(name, value)` tuples, raising TypeError for any grammar with a
keyword list. -/
theorem case_insensitive_broken :
    initCasesensitive [("casesensitive".toList, "false".toList)] = .pyStr ("false".toList) ∧
    PyVal.truthy (.pyStr ("false".toList)) = true ∧
    tryMatch syn4 kwRule4 ("INT x".toList) = .ok none ∧
    initCaseSetup [("casesensitive".toList, [])]
        [("kw".toList, ["int".toList, "float".toList])] = .error .typeError := by
  refine ⟨?_, ?_, ?_, ?_⟩ <;> decide

/-- C5: the claim says a regular-expression rule declared insensitive
matches case-insensitively.  `RegExpr.__init__` computes
`flags = re.IGNORECASE` but compiles with `re.compile(string)` — the flags
are never passed — so the rule declared with `insensitive` still stores a
case-sensitive pattern: on "ABC" the rule for `abc` reports no-match, on
"abc" it matches length 3, while the same pattern under the IGNORECASE flag
the code computed (and dropped) would have matched "ABC". -/
theorem regexpr_insensitive_flag_dropped :
    (regExprInit abcPattern true).ignoreCase = false ∧
    tryMatch synA1 reRuleAbc ("ABC".toList) = .ok none ∧
    tryMatch synA1 reRuleAbc ("abc".toList) = .ok (some 3) ∧
    reMatch abcPattern true ("ABC".toList) = some 3 := by
  refine ⟨?_, ?_, ?_, ?_⟩ <;> decide

/-- C6 counterexample: the claim says the keyword rule wins with length 3
("if") rather than 6.  The winning entry "if" has length 2 (and the regex
`/if\w*/` would have matched 5, not 6): the scan of the rules
`[keyword(["if","ifdef"]), /if\w*/]` on "ifdef" selects the keyword rule
with length 2, not 3. -/
theorem keyword_first_match_counterexample :
    tryRules syn6 0 ("ifdef".toList) ctx6.rules = .ok (some (kwRule6, 2)) ∧
    (2 : Nat) ≠ 3 := by
  exact ⟨by decide, by decide⟩

/-- C6 amended: keyword matching tests the named list's entries in list
order and returns the length of the first entry that is a prefix (not the
longest match), and rules are tried in declaration order with the first
match winning: on "ifdef" with list `["if", "ifdef"]` the keyword rule wins
and matches length 2 ("if"), not 5, even though both "ifdef" and the regex
`/if\w*/` (which alone matches length 5) would match more. -/
theorem keyword_first_match_order :
    tryRules syn6 0 ("ifdef".toList) ctx6.rules = .ok (some (kwRule6, 2)) ∧
    tryMatch syn6 kwRule6 ("ifdef".toList) = .ok (some 2) ∧
    tryMatch syn6 reRule6 ("ifdef".toList) = .ok (some 5) ∧
    firstPrefixLen ["if".toList, "ifdef".toList] ("ifdef".toList) = some 2 := by
  refine ⟨?_, ?_, ?_, ?_⟩ <;> decide

/-- C7: whenever every context operation of the active context's rules
resolves to a stack structurally equal to the current one (for example the
compound `"#popA"` that pops context "A" and pushes it back, or `"#stay"`),
the inner scan loop never returns early: it keeps accumulating spans into
one segment, scans to the end of the line and applies the line-end
operation.  (Conversely, by this very statement the segment can only end
early when some resulting stack is structurally unequal.)  The hypotheses
ask that the rules' matchers do not raise on the suffixes the loop visits
and that the line-end operation succeeds with `endStack`. -/
theorem stack_equality_drives_control (syn : SyntaxDef) (stack : List Context) (cur : Context)
    (text : PyStr) (col : Nat) (endStack : List Context)
    (hlast : pyLast stack = .ok cur)
    (hmatch : ∀ r ∈ cur.rules, ∀ k, k < text.length →
      ∃ o, tryMatch syn r (List.drop k text) = .ok o)
    (hstay : ∀ r ∈ cur.rules, ∀ op, r.contextOperation = some op →
      generateNextContextStack syn.contexts stack op = .ok stack)
    (hend : lineEndResult syn stack = .ok endStack) :
    ∃ n spans, parseBlockWithContextStack syn stack col text
        = .ok (some (n, endStack, spans)) ∧ text.length ≤ col + n := by
  unfold parseBlockWithContextStack
  rw [hlast]
  obtain ⟨n, tail, hres, hlen⟩ := parseInnerLoop_stay syn stack cur text col endStack
    hmatch hstay hend (text.length + 1) col [] (by omega) (Nat.le_refl col)
  exact ⟨n, tail, hres, hlen⟩

/-- C7 witness: grammar `syn7`, whose rule `DetectChar('x')` carries the
compound operation `"#popA"` resolving back to the same stack `[ctx7]`; on
the line "xy" the loop stays in one segment, scans the whole line and
returns the line-end stack. -/
theorem stack_equality_drives_control_witness :
    ∃ n spans, parseBlockWithContextStack syn7 [ctx7] 0 ("xy".toList)
        = .ok (some (n, [ctx7], spans)) ∧ ("xy".toList).length ≤ 0 + n :=
  stack_equality_drives_control syn7 [ctx7] ctx7 ("xy".toList) 0 [ctx7]
    (by decide)
    (by intro r hr k hk
        simp only [ctx7] at hr
        rw [List.mem_singleton] at hr
        subst hr
        have hk2 : k < 2 := by simpa using hk
        interval_cases k
        · exact ⟨some 1, by decide⟩
        · exact ⟨none, by decide⟩)
    (by intro r hr op hop
        simp only [ctx7] at hr
        rw [List.mem_singleton] at hr
        subst hr
        simp only [rule7] at hop
        injection hop with hop2
        subst hop2
        decide)
    (by decide)

/-- C8: a rule with a declared column is skipped — its matcher is not
invoked, the scan proceeds exactly as if the rule were absent — at every
column different from the declared one, even if its pattern would match;
and at the declared column it is attempted normally (if its matcher reports
a length it becomes the winning match). -/
theorem column_constraint_gates_rules (syn : SyntaxDef) (col c : Nat) (r : Rule)
    (rs : List Rule) (text : PyStr) (hc : r.column = some c) :
    (c ≠ col → tryRules syn col text (r :: rs) = tryRules syn col text rs) ∧
    (∀ n, c = col → tryMatch syn r (List.drop col text) = .ok (some n) →
      tryRules syn col text (r :: rs) = .ok (some (r, n))) := by
  have hskip : skipRule r col = (c != col) := by
    unfold skipRule
    rw [hc]
  constructor
  · intro hne
    have hsk : skipRule r col = true := by
      rw [hskip]
      simpa using hne
    simp only [tryRules]
    rw [hsk]
    simp
  · intro n hco hm
    subst hco
    have hsk : skipRule r c = false := by
      rw [hskip]
      simp
    simp only [tryRules]
    rw [hsk, hm]
    simp

/-- C8 witness: `rule8` is `DetectChar('a')` with `column=0`; at column 1 of
the line "ba" it is skipped (the scan equals the scan without it) even
though 'a' stands at column 1, and at column 0 it would be attempted
normally. -/
theorem column_constraint_gates_rules_witness :
    ((0 : Nat) ≠ 1 → tryRules synA1 1 ("ba".toList) [rule8] = tryRules synA1 1 ("ba".toList) []) ∧
    (∀ n, (0 : Nat) = 1 → tryMatch synA1 rule8 (List.drop 1 ("ba".toList)) = .ok (some n) →
      tryRules synA1 1 ("ba".toList) [rule8] = .ok (some (rule8, n))) :=
  column_constraint_gates_rules synA1 1 0 rule8 [] ("ba".toList) (by decide)

/-- C9 counterexample: the claim says parsing terminates for every grammar,
every iteration advancing the scan column by at least one character.  On
`synPing` — context "A" holds `StringDetect("")` pushing "B", context "B"
holds `StringDetect("")` popping — each outer iteration consumes a segment
of length 0 and the loop state returns to the very same `(stack, column)`
pair after two iterations: the `while` loop of `parseBlock` revisits
`([ctxPA], 0)` forever and never exits (the fueled model exhausts any
fuel, e.g. the `text.length + 1` used by `parseBlock`, shown in the last
conjunct). -/
theorem zero_length_match_cycle :
    outerBody synPing pingText [ctxPA] 0
        = .ok (some ((ctxPA, 0, [(rulePA, 0, 0)]), [ctxPA, ctxPB], 0)) ∧
    outerBody synPing pingText [ctxPA, ctxPB] 0
        = .ok (some ((ctxPB, 0, [(rulePB, 0, 0)]), [ctxPA], 0)) ∧
    0 < pingText.length ∧
    initialStack synPing none = [ctxPA] ∧
    parseBlock synPing pingText none = .ok none := by
  refine ⟨?_, ?_, ?_, ?_, ?_⟩ <;> decide

/-- C9 amended: `parseBlock` terminates for every grammar and prior stack
whose rules only ever match with positive length (every rule kind except
zero-length `StringDetect`/`Detect2Chars`/`keyword` literals already
guarantees this; regular expressions discard zero-length matches): each
inner-loop iteration advances the scan column by at least one character in
all cases, each segment then has positive length, so the outer loop needs
at most `text.length + 1` iterations and the fueled model never exhausts
its fuel — the total work is bounded by the line length. -/
theorem parse_terminates_with_positive_matches (syn : SyntaxDef) (text : PyStr)
    (prev : Option (List Context))
    (hpos : ∀ c, InSyntax syn c → ∀ r ∈ c.rules, ∀ t n, tryMatch syn r t = .ok (some n) → 0 < n)
    (hstk : ∀ c ∈ initialStack syn prev, InSyntax syn c) :
    parseBlock syn text prev ≠ .ok none := by
  unfold parseBlock
  exact parseBlockLoop_no_fuel_out syn text hpos (text.length + 1) (initialStack syn prev)
    0 [] hstk (by omega)

/-- C9 witness: the amended theorem applied to the `DetectChar('a')` grammar
`synA1` on the line "aa" with no prior stack. -/
theorem parse_terminates_with_positive_matches_witness :
    parseBlock synA1 ("aa".toList) none ≠ .ok none :=
  parse_terminates_with_positive_matches synA1 ("aa".toList) none
    (by intro c hc r hr t n h
        have hcc : c = ctxA1 := by
          rcases hc with h1 | ⟨name, hmem⟩
          · simpa [synA1] using h1
          · simp only [synA1] at hmem
            rw [List.mem_singleton] at hmem
            exact congrArg Prod.snd hmem
        subst hcc
        simp only [ctxA1] at hr
        rw [List.mem_singleton] at hr
        subst hr
        exact detectChar_positive synA1 ruleA1 'a' rfl t n h)
    (by intro c hc
        left
        simpa [initialStack, synA1] using hc)

/-- C10: on the empty line the outer loop of `parseBlock` never runs: the
input context stack is returned unchanged — in particular the active
context's `lineEndContext` operation is not applied — together with an
empty list of matched segments; with no prior line data the returned stack
is `[defaultContext]`. -/
theorem parseBlock_empty_line (syn : SyntaxDef) (stack : List Context) :
    parseBlock syn [] (some stack) = .ok (some (stack, [])) ∧
    parseBlock syn [] none = .ok (some ([syn.defaultContext], [])) := by
  constructor <;> rfl

end Qutepart
